import Mathlib

/-!
Verification development for the RAGoLLAMA ingestion-and-index subsystem
(test9 trial: chunker, deduper, embedding cache, FAISS vector store,
ingestion ledger, pipeline orchestrator, RAG service front door).

The Python sources are shallowly embedded: SQLite tables and Python dicts
become association lists with insert-or-replace-in-place semantics, float
vectors become lists of rationals (numpy's L2 norm is modeled with
`Rat.sqrt`, exact on the rational squares all theorems evaluate at),
`sha256` hexdigests become an abstract hash function parameter (assumed
injective where a theorem needs collision-freeness), wall-clock timestamps
become a natural-number parameter held constant within one call, and
`try/except` control flow becomes `Except`.
-/

set_option autoImplicit false
set_option maxRecDepth 6000

attribute [local semireducible] Rat.mul Rat.inv Rat.add Rat.sub

namespace RAGoLLAMA

/-- Vectors (numpy float arrays / lists of floats) are modeled as lists of
rationals. -/
abbrev Vec := List Rat

section AssocMap

variable {α β : Type} [DecidableEq α]

/-- Lookup in an association list; models Python `dict.get` / a SQL
`SELECT ... WHERE key = ?` on a primary-key column. -/
def lookupKey : List (α × β) → α → Option β
  | [], _ => none
  | p :: rest, k => if p.1 = k then some p.2 else lookupKey rest k

/-- Apply `f` to the value stored at `k`, in place; models a SQL
`UPDATE ... WHERE key = ?` and Python's in-place mutation of a dict value. -/
def updateKey (l : List (α × β)) (k : α) (f : β → β) : List (α × β) :=
  l.map fun p => if p.1 = k then (p.1, f p.2) else p

/-- Insert-or-replace; models Python `d[k] = v` (replacement keeps the key's
position, a fresh key is appended) and SQLite `INSERT OR REPLACE`. -/
def insertKey (l : List (α × β)) (k : α) (v : β) : List (α × β) :=
  if (lookupKey l k).isSome then updateKey l k (fun _ => v) else l ++ [(k, v)]

theorem lookupKey_updateKey_self (l : List (α × β)) (k : α) (f : β → β) :
    lookupKey (updateKey l k f) k = (lookupKey l k).map f := by
  induction l with
  | nil => rfl
  | cons p rest ih =>
    simp only [updateKey] at ih ⊢
    by_cases h : p.1 = k
    · simp [lookupKey, h]
    · simp [lookupKey, h, ih]

theorem lookupKey_updateKey_other (l : List (α × β)) (k k' : α) (f : β → β)
    (hne : k' ≠ k) : lookupKey (updateKey l k f) k' = lookupKey l k' := by
  induction l with
  | nil => rfl
  | cons p rest ih =>
    simp only [updateKey] at ih ⊢
    by_cases h : p.1 = k
    · simp [lookupKey, h, hne, Ne.symm hne, ih]
    · by_cases h' : p.1 = k' <;> simp [lookupKey, h, h', hne, ih]

theorem updateKey_keys (l : List (α × β)) (k : α) (f : β → β) :
    (updateKey l k f).map Prod.fst = l.map Prod.fst := by
  induction l with
  | nil => rfl
  | cons p rest ih =>
    simp only [updateKey] at ih ⊢
    by_cases h : p.1 = k <;> simp [h, ih]

theorem lookupKey_append (l₁ l₂ : List (α × β)) (k : α) :
    lookupKey (l₁ ++ l₂) k =
      ((lookupKey l₁ k).rec (lookupKey l₂ k) (fun v => some v) : Option β) := by
  induction l₁ with
  | nil => rfl
  | cons p rest ih => by_cases h : p.1 = k <;> simp [lookupKey, h, ih]

theorem lookupKey_insertKey_self (l : List (α × β)) (k : α) (v : β) :
    lookupKey (insertKey l k v) k = some v := by
  unfold insertKey
  by_cases h : (lookupKey l k).isSome
  · simp [h, lookupKey_updateKey_self]
    cases hl : lookupKey l k with
    | none => rw [hl] at h; simp at h
    | some w => simp
  · simp [h, lookupKey_append]
    cases hl : lookupKey l k with
    | none => simp [lookupKey]
    | some w => rw [hl] at h; simp at h

end AssocMap

/-! ## Text utilities (Python `str.split()`, `str.lower()`, `" ".join`) -/

/-- Worker for `splitWs`, walking the character list with the current word
accumulated in reverse. -/
def splitWsChars : List Char → List Char → List String
  | [], acc => if acc = [] then [] else [String.mk acc.reverse]
  | ch :: rest, acc =>
    if ch.isWhitespace then
      (if acc = [] then [] else [String.mk acc.reverse]) ++ splitWsChars rest []
    else splitWsChars rest (ch :: acc)

/-- Python `text.split()`: split on whitespace runs, dropping empty pieces. -/
def splitWs (s : String) : List String := splitWsChars s.data []

/-- Python `" ".join(words)`. -/
def joinWords : List String → String
  | [] => ""
  | [w] => w
  | w :: ws => w ++ " " ++ joinWords ws

/-- Python `s.lower()` (ASCII-faithful). -/
def lowerStr (s : String) : String := String.mk (s.data.map Char.toLower)

/-- Python `s[:n]`. -/
def takeStr (s : String) (n : Nat) : String := String.mk (s.data.take n)

/-- `Deduper._normalize_text`: `" ".join(text.lower().split())`. -/
def normalizeText (s : String) : String := joinWords (splitWs (lowerStr s))

/-- Python `f"{n:04d}"`: decimal rendering left-padded with zeros to width 4. -/
def pad4 (n : Nat) : String :=
  let s := toString n
  String.mk (List.replicate (4 - s.length) '0') ++ s

/-! ## Chunker (`apps/rag/ingestion/chunker.py`) -/

/-- The `meta` dict carried on chunks.  Keys that a stage may or may not have
set are `Option`-valued (a Python dict simply lacks the key). -/
structure ChunkMeta where
  page : Nat := 1
  mime : String := "text/plain"
  doc_sha256 : Option String := none
  chunk_size : Nat := 0
  start_word : Option Nat := none
  end_word : Option Nat := none
  dedup_hash : Option String := none
  is_deduplicated : Option Bool := none
deriving DecidableEq, Repr

/-- `TextChunk` dataclass. -/
structure TextChunk where
  doc_id : String
  chunk_id : String
  text : String
  sha256 : String
  order : Nat
  meta : ChunkMeta
deriving DecidableEq, Repr

/-- The multi-chunk sliding-window loop of `Chunker.chunk_text`.  The Python
`while` loop advances `start_idx` by `chunk_size - chunk_overlap` per step;
it terminates only when `chunk_overlap < chunk_size`, so the embedding uses
explicit fuel (`words.length + 1` suffices in that case, each step emitting
at least one word of progress). -/
def chunkWindows (sha : String → String) (chunkSize chunkOverlap : Nat)
    (docId : String) (baseMeta : ChunkMeta) (words : List String) :
    Nat → Nat → Nat → List TextChunk
  | 0, _, _ => []
  | fuel + 1, startIdx, order =>
    if startIdx < words.length then
      let endIdx := min (startIdx + chunkSize) words.length
      let chunkWords := (words.drop startIdx).take (endIdx - startIdx)
      let chunkStr := joinWords chunkWords
      let chunkHash := sha chunkStr
      let h8 := takeStr chunkHash 8
      let ord4 := pad4 order
      let cid := s!"{docId}_chunk_{ord4}_{h8}"
      let c : TextChunk :=
        { doc_id := docId
          chunk_id := cid
          text := chunkStr
          sha256 := chunkHash
          order := order
          meta := { baseMeta with
                      chunk_size := chunkWords.length
                      start_word := some startIdx
                      end_word := some endIdx } }
      if words.length ≤ endIdx then [c]
      else c :: chunkWindows sha chunkSize chunkOverlap docId baseMeta words fuel
             (endIdx - chunkOverlap) (order + 1)
    else []

/-- `Chunker.chunk_text(text, doc_id, meta)` (the lazy generator, collected
into a list). -/
def chunkText (sha : String → String) (chunkSize chunkOverlap : Nat)
    (text docId : String) (meta : ChunkMeta) : List TextChunk :=
  let words := splitWs text
  if words.length ≤ chunkSize then
    let chunkStr := joinWords words
    let chunkHash := sha chunkStr
    let h8 := takeStr chunkHash 8
    let cid := s!"{docId}_{h8}"
    [{ doc_id := docId
       chunk_id := cid
       text := chunkStr
       sha256 := chunkHash
       order := 0
       meta := { meta with chunk_size := words.length } }]
  else chunkWindows sha chunkSize chunkOverlap docId meta words (words.length + 1) 0 0

/-! ## Deduper (`apps/rag/ingestion/deduper.py`) -/

/-- `DedupedChunk` dataclass. -/
structure DedupedChunk where
  chunk_id : String
  text : String
  sha256 : String
  doc_ids : List String
  order : Nat
  meta : ChunkMeta
deriving DecidableEq, Repr

/-- The `Deduper`'s process-lifetime state: the seen-hash set (kept as the
list of first-insertion order, duplicates never added) and the canonical
registry keyed by normalized-content hash. -/
structure DeduperState where
  seen_hashes : List String
  chunk_registry : List (String × DedupedChunk)
deriving DecidableEq, Repr

def DeduperState.empty : DeduperState := ⟨[], []⟩

/-- `Deduper.deduplicate_chunk`: returns the updated state plus the yielded
chunks (`[]` for a duplicate, `[d]` for a fresh canonical chunk).  In the
duplicate branch the Python code mutates the registry entry in place,
appending the contributing `doc_id` if absent. -/
def dedupChunk (sha : String → String) (st : DeduperState) (c : TextChunk) :
    DeduperState × List DedupedChunk :=
  let ntext := normalizeText c.text
  let chash := sha ntext
  if chash ∈ st.seen_hashes then
    ({ st with chunk_registry := updateKey st.chunk_registry chash (fun e =>
        if c.doc_id ∈ e.doc_ids then e else { e with doc_ids := e.doc_ids ++ [c.doc_id] }) },
     [])
  else
    let d : DedupedChunk :=
      { chunk_id := c.chunk_id
        text := c.text
        sha256 := chash
        doc_ids := [c.doc_id]
        order := c.order
        meta := { c.meta with dedup_hash := some chash, is_deduplicated := some false } }
    ({ seen_hashes := st.seen_hashes ++ [chash]
       chunk_registry := st.chunk_registry ++ [(chash, d)] },
     [d])

/-- Feeding a sequence of chunks through `deduplicate_chunk`, concatenating
the yields. -/
def dedupList (sha : String → String) (st : DeduperState) :
    List TextChunk → DeduperState × List DedupedChunk
  | [] => (st, [])
  | c :: cs =>
    let r1 := dedupChunk sha st c
    let r2 := dedupList sha r1.1 cs
    (r2.1, r1.2 ++ r2.2)

/-- `Deduper.process_jsonl` writes `chunk_registry.values()` (insertion
order) as its output file. -/
def deduperOutput (st : DeduperState) : List DedupedChunk :=
  st.chunk_registry.map Prod.snd

/-! ## Vector store (`apps/rag/store/vector_store.py`) -/

/-- Integer square root by bounded search; stands in for the real square
root inside `np.linalg.norm` (exact on perfect squares, floor otherwise —
only exact cases are ever relied upon). -/
def natSqrtLinear (n : Nat) : Nat :=
  (List.range (n + 1)).foldl (fun acc k => if k * k ≤ n then k else acc) 0

/-- Square root on nonnegative rationals (componentwise on the reduced
numerator and denominator; exact whenever both are perfect squares). -/
def ratSqrt (q : Rat) : Rat :=
  (natSqrtLinear q.num.toNat : Rat) / (natSqrtLinear q.den : Rat)

/-- Worker for `sumSq`; the intermediate sum is destructured at every step
so that evaluation stays iterative. -/
def sumSqGo : Rat → Vec → Rat
  | acc, [] => acc
  | acc, x :: xs =>
    match acc + x * x with
    | ⟨n, d, hnz, hred⟩ => sumSqGo ⟨n, d, hnz, hred⟩ xs

/-- Sum of squares of a vector's components (`np.linalg.norm(v)` is
`sqrt(Σ v_i²)`). -/
def sumSq (v : Vec) : Rat := sumSqGo 0 v

/-- `VectorStore._normalize_vector`: divide by the L2 norm, returning the
vector unchanged when the norm is zero. -/
def normalizeVector (v : Vec) : Vec :=
  let n := ratSqrt (sumSq v)
  if n = 0 then v else v.map (fun x => x / n)

/-- The metadata dict the pipeline attaches to each upserted vector. -/
structure UpsertMeta where
  doc_id : String := ""
  text : String := ""
  order : Nat := 0
  chunk_hash : String := ""
  original_meta : ChunkMeta := {}
deriving DecidableEq, Repr

/-- One entry of `VectorStore.chunk_metadata`: the caller-provided payload
(`none` models the `{}` default) merged with the store-assigned fields.
`deleted`/`deleted_at` are absent (`false`/`none`) until `delete_chunk`
sets them. -/
structure VMeta where
  payload : Option UpsertMeta := none
  index_id : Nat
  added_at : Nat
  deleted : Bool := false
  deleted_at : Option Nat := none
deriving DecidableEq, Repr

/-- In-memory state of one `VectorStore` instance: the FAISS
`IndexFlatIP` content (`rows`, so `ntotal = rows.length`), the
`chunk_metadata` dict and `current_version`. -/
structure VectorStore where
  dimension : Nat
  rows : List Vec
  chunk_metadata : List (String × VMeta)
  current_version : String
deriving DecidableEq, Repr

/-- The three on-disk artifacts in `index_dir`; `none` models a missing
file. -/
structure VDiskFiles where
  indexFile : Option (List Vec) := none
  metadataFile : Option (List (String × VMeta)) := none
  versionFile : Option String := none
deriving DecidableEq, Repr

/-- Filesystem actions a vector-store operation performs, in order.  Lock
events are included in the vocabulary so that the absence of locking in
the implementation is an inspectable fact, not a modeling gap. -/
inductive FsEvent
  | readIndexFile
  | readMetadataFile
  | readVersionFile
  | writeIndexFile
  | writeMetadataFile
  | writeVersionFile
  | acquireSharedLock
  | acquireExclusiveLock
  | releaseLock
deriving DecidableEq, Repr

/-- `VectorStore._generate_version`: a timestamp-based version string; the
wall clock is modeled by the `t : Nat` parameter threaded into each
operation. -/
def generateVersion (t : Nat) : String := s!"v{t}"

/-- `VectorStore._load_or_create_index` (composed with `__init__`): load
the three artifacts when index and metadata files exist, else create a
fresh empty index.  A missing version file defaults to `"v1"`.  (The
`except`-on-corrupt-load fallback is not modeled: disk states here are
always well-formed values.) -/
def loadOrCreateIndex (dimension : Nat) (disk : VDiskFiles) (t : Nat) : VectorStore :=
  match disk.indexFile, disk.metadataFile with
  | some rows, some md =>
    { dimension := dimension
      rows := rows
      chunk_metadata := md
      current_version := disk.versionFile.getD "v1" }
  | _, _ =>
    { dimension := dimension
      rows := []
      chunk_metadata := []
      current_version := generateVersion t }

/-- `VectorStore._save_index`: write the FAISS blob, the metadata pickle
and the version marker, in that order, with no locking whatsoever. -/
def saveIndex (s : VectorStore) : VDiskFiles × List FsEvent :=
  ({ indexFile := some s.rows
     metadataFile := some s.chunk_metadata
     versionFile := some s.current_version },
   [FsEvent.writeIndexFile, FsEvent.writeMetadataFile, FsEvent.writeVersionFile])

/-- The apostrophe of the source's error text, assembled from its
character code. -/
def apos : String := String.mk [Char.ofNat 39]

/-- The `ValueError` message raised by `upsert` on a dimension mismatch:
`f"Vector dimension {n} doesn{'}t match index dimension {d}"`. -/
def dimErrMsg (n d : Nat) : String :=
  "Vector dimension " ++ toString n ++ " doesn" ++ apos ++ "t match index dimension "
    ++ toString d

/-- The per-entry loop of `VectorStore.upsert`: check the dimension, then
record metadata (payload merged with `index_id = ntotal + i` and
`added_at`), accumulating normalized vectors.  On a mismatch the
`ValueError` is raised after the earlier iterations already mutated
`self.chunk_metadata`, so the partially-updated dict is returned with the
error. -/
def upsertGo (dim t ntotal : Nat) (mds : List UpsertMeta) :
    List (String × Vec) → Nat → List (String × VMeta) → List Vec →
      List (String × VMeta) × Except String (List Vec)
  | [], _, md, acc => (md, Except.ok acc)
  | (cid, v) :: rest, i, md, acc =>
    if v.length ≠ dim then (md, Except.error (dimErrMsg v.length dim))
    else
      let nv := normalizeVector v
      let md' := insertKey md cid
        { payload := mds.get? i, index_id := ntotal + i, added_at := t }
      upsertGo dim t ntotal mds rest (i + 1) md' (acc ++ [nv])

/-- `VectorStore.upsert(vectors, metadata)`: empty input returns the
current version untouched; otherwise validate/normalize/record, append to
the FAISS index, bump the version and persist all three artifacts.  The
result carries the (possibly metadata-polluted) store, the disk state and
either the new version or the raised error message. -/
def VectorStore.upsert (s : VectorStore) (disk : VDiskFiles) (t : Nat)
    (vectors : List (String × Vec)) (metadata : List UpsertMeta) :
    VectorStore × VDiskFiles × Except String String :=
  if vectors.isEmpty then (s, disk, Except.ok s.current_version)
  else
    match upsertGo s.dimension t s.rows.length metadata vectors 0 s.chunk_metadata [] with
    | (md, Except.error e) => ({ s with chunk_metadata := md }, disk, Except.error e)
    | (md, Except.ok nvs) =>
      let s' : VectorStore :=
        { s with
            chunk_metadata := md
            rows := s.rows ++ nvs
            current_version := generateVersion t }
      (s', (saveIndex s').1, Except.ok s'.current_version)

/-- Inner product of two vectors. -/
def innerProd (u v : Vec) : Rat :=
  (List.zipWith (fun a b => a * b) u v).foldl (fun acc x => acc + x) 0

/-- Ranking used by `faiss.IndexFlatIP.search`: higher score first, ties
broken by lower internal index. -/
def insertRanked (x : Rat × Int) : List (Rat × Int) → List (Rat × Int)
  | [] => [x]
  | y :: ys =>
    if x.1 > y.1 ∨ (x.1 = y.1 ∧ x.2 ≤ y.2) then x :: y :: ys else y :: insertRanked x ys

/-- `faiss.IndexFlatIP.search`: exact top-`k` by inner product over all
stored rows, padded with index `-1` (score slot unused) when `k` exceeds
`ntotal`, exactly as FAISS pads. -/
def faissSearch (rows : List Vec) (q : Vec) (k : Nat) : List (Rat × Int) :=
  let scored := rows.enum.map (fun p => (innerProd q p.2, (p.1 : Int)))
  let ranked := scored.foldr insertRanked []
  let top := ranked.take k
  top ++ List.replicate (k - top.length) ((0 : Rat), (-1 : Int))

/-- The `chunk_id_map` comprehension of `VectorStore.query`:
`{meta["index_id"]: chunk_id for chunk_id, meta in chunk_metadata.items()}`
(later entries overwrite earlier ones on an `index_id` collision). -/
def chunkIdMap (md : List (String × VMeta)) : List (Int × String) :=
  md.foldl (fun acc p => insertKey acc (Int.ofNat p.2.index_id) p.1) []

/-- `VectorStore.query(vector, k)`: empty store returns `[]`; otherwise
normalize the query, run the FAISS search, and map internal indices back
to chunk ids, skipping `-1` slots and falsy (missing or empty) chunk ids.
The `deleted` flag is never consulted.  (The `str` overload, which raises
`NotImplementedError`, and the unimplemented `filters` argument are not
modeled.) -/
def VectorStore.query (s : VectorStore) (queryInput : Vec) (k : Nat) :
    List (String × Rat) :=
  if s.rows.length = 0 then []
  else
    let qv := normalizeVector queryInput
    let pairs := faissSearch s.rows qv k
    let m := chunkIdMap s.chunk_metadata
    pairs.foldl (fun res p =>
      if p.2 = -1 then res
      else
        match lookupKey m p.2 with
        | some cid => if cid = "" then res else res ++ [(cid, p.1)]
        | none => res) []

/-- The dict returned by `VectorStore.get_stats`.  The on-disk FAISS file
byte size is abstracted to the number of vectors persisted in it (only
its presence/absence distinction carries information in this model). -/
structure VStats where
  total_vectors : Nat
  dimension : Nat
  current_version : String
  index_size_bytes : Nat
  metadata_count : Nat
deriving DecidableEq, Repr

/-- `VectorStore.get_stats`. -/
def VectorStore.getStats (s : VectorStore) (disk : VDiskFiles) : VStats :=
  { total_vectors := s.rows.length
    dimension := s.dimension
    current_version := s.current_version
    index_size_bytes := (disk.indexFile.map List.length).getD 0
    metadata_count := s.chunk_metadata.length }

/-- `VectorStore.delete_chunk`: flag the metadata entry as deleted in
memory and return `True`; unknown ids return `False`.  No index rows are
touched and nothing is persisted (the method performs no file IO). -/
def VectorStore.deleteChunk (s : VectorStore) (t : Nat) (cid : String) :
    VectorStore × Bool :=
  match lookupKey s.chunk_metadata cid with
  | some _ =>
    let md := updateKey s.chunk_metadata cid
      (fun m => { m with deleted := true, deleted_at := some t })
    ({ s with chunk_metadata := md }, true)
  | none => (s, false)

/-! ## Ingestion ledger (`apps/rag/store/ledger.py`) -/

/-- The `IngestionStatus` enum. -/
inductive IngestionStatus
  | pending
  | processing
  | completed
  | failed
deriving DecidableEq, Repr

/-- `IngestionStatus.value` (the string stored in the `status` column). -/
def IngestionStatus.value : IngestionStatus → String
  | .pending => "pending"
  | .processing => "processing"
  | .completed => "completed"
  | .failed => "failed"

/-- One row of the `documents` table (timestamps as the ambient clock;
the free-form JSON `metadata` column as an opaque optional string). -/
structure DocRow where
  doc_id : String
  filename : String
  content_hash : String
  file_size : Option Nat := none
  mime_type : Option String := none
  status : String := "pending"
  version : Nat := 1
  chunks_count : Nat := 0
  embedding_model : Option String := none
  index_version : Option String := none
  error_message : Option String := none
  metadata : Option String := none
  last_updated : Nat := 0
deriving DecidableEq, Repr

/-- One row of the `chunks` table. -/
structure ChunkRow where
  chunk_id : String
  doc_id : String
  chunk_order : Nat
  chunk_hash : String
  embedding_hash : Option String := none
  is_embedded : Bool := false
deriving DecidableEq, Repr

/-- The ledger's SQLite database: `documents` keyed by its `doc_id`
primary key, `chunks` as a row list. -/
structure LedgerDb where
  documents : List (String × DocRow)
  chunks : List ChunkRow
deriving DecidableEq, Repr

/-- `IngestionLedger.add_document`: unseen `doc_id` → insert at
`version=1`/`pending`, return `True`.  Seen with the same hash → no-op,
return `False`.  Seen with a different hash → bump `version`, reset
`status`, refresh the descriptive columns, return `True`.  Note the
`UPDATE` never touches `error_message`. -/
def addDocument (db : LedgerDb) (t : Nat) (docId filename contentHash : String)
    (fileSize : Option Nat) (mimeType : Option String) (meta : Option String) :
    Bool × LedgerDb :=
  match lookupKey db.documents docId with
  | some row =>
    if row.content_hash = contentHash then (false, db)
    else
      let docs := updateKey db.documents docId (fun r =>
        { r with
            content_hash := contentHash
            version := r.version + 1
            status := "pending"
            last_updated := t
            filename := filename
            file_size := fileSize
            mime_type := mimeType
            metadata := meta })
      (true, { db with documents := docs })
  | none =>
    let row : DocRow :=
      { doc_id := docId
        filename := filename
        content_hash := contentHash
        file_size := fileSize
        mime_type := mimeType
        metadata := meta
        last_updated := t }
    (true, { db with documents := db.documents ++ [(docId, row)] })

/-- `IngestionLedger.update_status`: set `status` and `error_message`
(defaulting to NULL) on the document row, if present. -/
def updateStatus (db : LedgerDb) (t : Nat) (docId : String)
    (status : IngestionStatus) (errorMessage : Option String) : LedgerDb :=
  { db with documents := updateKey db.documents docId (fun r =>
      { r with status := status.value, error_message := errorMessage, last_updated := t }) }

/-- `IngestionLedger.add_chunks`: delete the document's prior chunk rows,
insert the new ones (`(chunk_id, order, sha256)` triples) and refresh
`chunks_count`. -/
def addChunks (db : LedgerDb) (t : Nat) (docId : String)
    (chunks : List (String × Nat × String)) : LedgerDb :=
  let remaining := db.chunks.filter (fun c => c.doc_id ≠ docId)
  let newRows : List ChunkRow := chunks.map (fun c =>
    { chunk_id := c.1, doc_id := docId, chunk_order := c.2.1, chunk_hash := c.2.2 })
  { documents := updateKey db.documents docId (fun r =>
      { r with chunks_count := chunks.length, last_updated := t })
    chunks := remaining ++ newRows }

/-- `IngestionLedger.mark_chunks_embedded`: flag the listed chunks and
stamp their owning documents' `embedding_model`.  With an empty id list
the generated SQL is `... WHERE chunk_id IN ()`, which SQLite rejects, so
the call raises; the guard in the source protects only the second
statement. -/
def markChunksEmbedded (db : LedgerDb) (t : Nat) (chunkIds : List String)
    (model : String) : Except String LedgerDb :=
  if chunkIds.isEmpty then Except.error "near \")\": syntax error"
  else
    let chunks' := db.chunks.map (fun c =>
      if c.chunk_id ∈ chunkIds then
        { c with is_embedded := true, embedding_hash := some model }
      else c)
    let targetDocs := (db.chunks.filter (fun c => c.chunk_id ∈ chunkIds)).map (·.doc_id)
    let docs := db.documents.map (fun p : String × DocRow =>
      if p.1 ∈ targetDocs then
        (p.1, { p.2 with embedding_model := some model, last_updated := t })
      else p)
    Except.ok { documents := docs, chunks := chunks' }

/-- `IngestionLedger.get_document_status`. -/
def getDocumentStatus (db : LedgerDb) (docId : String) : Option DocRow :=
  lookupKey db.documents docId

/-! ## Embedding cache (`apps/rag/embeddings/cache.py`) -/

/-- `EmbeddingCache._compute_cache_key`: `sha256(f"{model}:{text}")`. -/
def cacheKey (sha : String → String) (text model : String) : String :=
  sha (model ++ ":" ++ text)

/-- `EmbeddingCache.get`: a pure lookup.  When the backing SQLite store is
unavailable (`avail = false`) the call raises — the model surfaces that as
an error, mirroring `sqlite3.OperationalError`. -/
def cacheGet (avail : Bool) (cacheDb : List (String × Vec)) (sha : String → String)
    (text model : String) : Except String (Option Vec) :=
  if avail then Except.ok (lookupKey cacheDb (cacheKey sha text model))
  else Except.error "embedding cache unavailable"

/-- `EmbeddingCache.put`: `INSERT OR REPLACE` keyed by the cache key;
raises when the store is unavailable. -/
def cachePut (avail : Bool) (cacheDb : List (String × Vec)) (sha : String → String)
    (text model : String) (v : Vec) : Except String (List (String × Vec)) :=
  if avail then Except.ok (insertKey cacheDb (cacheKey sha text model) v)
  else Except.error "embedding cache unavailable"

/-! ## Pipeline orchestrator (`apps/rag/ingestion/pipeline.py`) -/

/-- One line of the docling-runner JSONL output
(`{doc_id, page, text, mime, sha256, meta}`); the runner derives its own
`doc_id` from the file content, independent of the pipeline's argument. -/
structure ExtractRecord where
  doc_id : String
  text : String
  page : Nat := 1
  mime : String := "text/plain"
  sha256 : Option String := none
deriving DecidableEq, Repr

/-- The pipeline's external collaborators and failure switches:
`sha` models `hashlib.sha256(...).hexdigest()`, `extract` the
`DoclingRunner` (which may raise, e.g. `FileNotFoundError` or
`NotImplementedError` on binary files), `embed` the sentence-transformer
`Embedder.embed_text`, and `cacheAvailable` whether the embedding cache's
SQLite store is reachable. -/
structure PipelineEnv where
  sha : String → String
  extract : String → Except String (List ExtractRecord)
  embed : String → Vec
  cacheAvailable : Bool

/-- The three persistence roots shared by pipeline runs: the ledger
database, the vector-store index directory, and the embedding-cache
database. -/
structure PState where
  ledger : LedgerDb
  index : VDiskFiles
  cache : List (String × Vec)
deriving DecidableEq, Repr

/-- The result dict of `IngestionPipeline.process_document` /
`RAGService.ingest_document` (wall-clock durations and the derived
`hit_rate` ratio are not modeled; hit/miss counts are). -/
structure PResult where
  status : String
  doc_id : String
  filename : Option String := none
  message : Option String := none
  chunks_processed : Nat := 0
  index_version : Option String := none
  cache_hits : Nat := 0
  cache_misses : Nat := 0
  error : Option String := none
deriving DecidableEq, Repr

/-- Steps 1–2 of the pipeline body: `Chunker.process_jsonl` over the
docling records (each record is chunked with its own `doc_id` and a meta
dict carrying page/mime/doc hash). -/
def stageChunk (env : PipelineEnv) (chunkSize chunkOverlap : Nat)
    (records : List ExtractRecord) : List TextChunk :=
  (records.map (fun r =>
    chunkText env.sha chunkSize chunkOverlap r.text r.doc_id
      { page := r.page, mime := r.mime, doc_sha256 := r.sha256 })).flatten

/-- Step 3: `Deduper.process_jsonl` — feed every chunk through
`deduplicate_chunk`, then emit the registry values (a fresh `Deduper` is
constructed per pipeline, so the registry starts empty). -/
def stageDedup (env : PipelineEnv) (chunks : List TextChunk) : List DedupedChunk :=
  deduperOutput (dedupList env.sha DeduperState.empty chunks).1

/-- One chunk ready for upsert: id, vector, and the metadata dict built in
step 5. -/
structure EmbeddedChunk where
  chunk_id : String
  vector : Vec
  metadata : UpsertMeta
deriving DecidableEq, Repr

/-- Step 5: embed each deduplicated chunk, consulting the cache first and
populating it on a miss.  Threads the cache database and the hit/miss
counters; any cache error propagates (there is no `try` around the cache
calls in the source). -/
def stageEmbed (env : PipelineEnv) (model docId : String) :
    List DedupedChunk → List (String × Vec) → Nat → Nat →
      Except String (List EmbeddedChunk × List (String × Vec) × Nat × Nat)
  | [], cdb, hits, misses => Except.ok ([], cdb, hits, misses)
  | d :: ds, cdb, hits, misses =>
    let meta : UpsertMeta :=
      { doc_id := docId
        text := d.text
        order := d.order
        chunk_hash := d.sha256
        original_meta := d.meta }
    match cacheGet env.cacheAvailable cdb env.sha d.text model with
    | Except.error e => Except.error e
    | Except.ok (some v) =>
      match stageEmbed env model docId ds cdb (hits + 1) misses with
      | Except.error e => Except.error e
      | Except.ok (rest, cdb', h, m) =>
        Except.ok ({ chunk_id := d.chunk_id, vector := v, metadata := meta } :: rest,
          cdb', h, m)
    | Except.ok none =>
      let v := env.embed d.text
      match cachePut env.cacheAvailable cdb env.sha d.text model v with
      | Except.error e => Except.error e
      | Except.ok cdb1 =>
        match stageEmbed env model docId ds cdb1 hits (misses + 1) with
        | Except.error e => Except.error e
        | Except.ok (rest, cdb', h, m) =>
          Except.ok ({ chunk_id := d.chunk_id, vector := v, metadata := meta } :: rest,
            cdb', h, m)

/-- The `except` handler of `process_document`: record the failure in the
ledger and return the structured failure result (never re-raise). -/
def pipelineFail (t : Nat) (ps : PState) (docId : String) (e : String) :
    PResult × PState :=
  let msg := "Pipeline failed: " ++ e
  ({ status := "failed", doc_id := docId, error := some msg },
   { ps with ledger := updateStatus ps.ledger t docId IngestionStatus.failed (some msg) })

/-- `IngestionPipeline.process_document`.  The store dimension is the
hard-coded `384` of `IngestionPipeline.__init__`; a fresh `VectorStore` is
loaded from the index directory (as `RAGService.ingest_document`
constructs a fresh pipeline per call).  Temp-file cleanup performs no
observable state change and is not modeled.  The unused `file_size` and
`mime_type` parameters of the source are omitted. -/
def processDocument (env : PipelineEnv) (chunkSize chunkOverlap : Nat)
    (model : String) (t : Nat) (ps : PState)
    (filePath docId filename : String) : PResult × PState :=
  let ps0 := { ps with ledger := updateStatus ps.ledger t docId IngestionStatus.processing none }
  match env.extract filePath with
  | Except.error e => pipelineFail t ps0 docId e
  | Except.ok records =>
    let chunks := stageChunk env chunkSize chunkOverlap records
    let deduped := stageDedup env chunks
    match stageEmbed env model docId deduped ps0.cache 0 0 with
    | Except.error e => pipelineFail t ps0 docId e
    | Except.ok (embedded, cacheDb, hits, misses) =>
      let ps1 := { ps0 with cache := cacheDb }
      let store := loadOrCreateIndex 384 ps1.index t
      let vectorsForUpsert := embedded.map (fun c => (c.chunk_id, c.vector))
      let metadataForUpsert := embedded.map (fun c => c.metadata)
      match store.upsert ps1.index t vectorsForUpsert metadataForUpsert with
      | (_, _, Except.error e) => pipelineFail t ps1 docId e
      | (_, disk', Except.ok ver) =>
        let ps2 := { ps1 with index := disk' }
        let ledger1 := addChunks ps2.ledger t docId
          (embedded.map (fun c => (c.chunk_id, c.metadata.order, c.metadata.chunk_hash)))
        match markChunksEmbedded ledger1 t (embedded.map (·.chunk_id)) model with
        | Except.error e => pipelineFail t { ps2 with ledger := ledger1 } docId e
        | Except.ok ledger2 =>
          let ledger3 := updateStatus ledger2 t docId IngestionStatus.completed none
          ({ status := "completed"
             doc_id := docId
             filename := some filename
             chunks_processed := embedded.length
             index_version := some ver
             cache_hits := hits
             cache_misses := misses },
           { ps2 with ledger := ledger3 })

/-! ## RAG service front door
(`apps/backend/services/rag_service.py`, `RAGService.ingest_document`) -/

/-- `RAGService.ingest_document`: early-return `already_processed` when
the ledger already holds this `(doc_id, content_hash)` in `completed`
state; otherwise register the document and run a fresh ingestion
pipeline.  (The outer `except` wraps operations that cannot fail in this
model — `process_document` catches its own exceptions.) -/
def ingestDocument (env : PipelineEnv) (chunkSize chunkOverlap : Nat)
    (model : String) (t : Nat) (ps : PState)
    (filePath docId filename contentHash : String)
    (fileSize : Option Nat) (mimeType : Option String) : PResult × PState :=
  let run : PResult × PState :=
    let reg := addDocument ps.ledger t docId filename contentHash fileSize mimeType none
    processDocument env chunkSize chunkOverlap model t { ps with ledger := reg.2 }
      filePath docId filename
  match getDocumentStatus ps.ledger docId with
  | some row =>
    if row.content_hash = contentHash ∧ row.status = "completed" then
      ({ status := "already_processed"
         doc_id := docId
         message := some "Document already processed" }, ps)
    else run
  | none => run

/-! ## Claim C10 — empty upsert batch is a complete no-op -/

/-- C10: for the empty entries list, `upsert` returns the store's current
`index_version` and changes nothing: the version is not bumped, nothing is
written to disk, and the metadata map and vector count are unchanged. -/
theorem C10_upsert_empty_noop (s : VectorStore) (disk : VDiskFiles) (t : Nat)
    (mds : List UpsertMeta) :
    s.upsert disk t [] mds = (s, disk, Except.ok s.current_version) := by
  simp [VectorStore.upsert]

/-! ## Claim C4 — chunking the empty text -/

/-- C4 (counterexample): on an empty input text `chunk_text` does not
yield zero chunks — `words = []` satisfies `len(words) <= chunk_size`, so
the single-chunk branch emits one chunk of empty text. -/
theorem C4_empty_text_counterexample :
    (chunkText id 512 50 "" "d1" {}).length ≠ 0 := by decide

/-- C4 (amended): for the empty input text and every hash model, window
parameters, doc id and metadata map, `chunk_text` yields exactly one chunk,
whose text is empty and whose order is 0, raising no error. -/
theorem C4_empty_text_one_chunk (sha : String → String) (cs co : Nat)
    (d : String) (m : ChunkMeta) :
    (chunkText sha cs co "" d m).map (fun c => (c.text, c.order)) = [("", 0)] := by
  have hsplit : splitWs "" = [] := rfl
  simp [chunkText, hsplit, joinWords]

/-! ## Claim C8 — persistence discipline of the vector store -/

/-- C8 (counterexample): `_save_index` on a store freshly created in an
empty index directory acquires no exclusive file lock (its filesystem
event trace contains no lock acquisition at all), refuting the claimed
write-side locking discipline at this concrete input. -/
theorem C8_no_lock_counterexample :
    FsEvent.acquireExclusiveLock ∉ (saveIndex (loadOrCreateIndex 384 {} 0)).2 := by
  decide

/-- C8 (amended): `_save_index` persists the index blob, the metadata map
and the version marker as three sequential unguarded writes; its
filesystem activity contains no exclusive or shared lock acquisition, so
no mutual-exclusion guarantee is provided against concurrent processes
(and `query`/`stats` read only the in-memory state loaded at construction,
taking no shared lock either). -/
theorem C8_save_unlocked (s : VectorStore) :
    (saveIndex s).1 =
      { indexFile := some s.rows
        metadataFile := some s.chunk_metadata
        versionFile := some s.current_version }
    ∧ (saveIndex s).2 =
        [FsEvent.writeIndexFile, FsEvent.writeMetadataFile, FsEvent.writeVersionFile]
    ∧ ∀ e ∈ (saveIndex s).2,
        e ≠ FsEvent.acquireExclusiveLock ∧ e ≠ FsEvent.acquireSharedLock := by
  refine ⟨rfl, rfl, ?_⟩
  intro e he
  simp [saveIndex] at he
  rcases he with h | h | h <;> simp [h]

/-! ## Claim C2 — register (`add_document`) semantics -/

/-- A ledger row for a document previously marked failed, with a recorded
error message. -/
def c2Row : DocRow :=
  { doc_id := "d1"
    filename := "f.txt"
    content_hash := "h1"
    status := "failed"
    version := 3
    error_message := some "boom" }

/-- A ledger holding `c2Row`. -/
def c2Db : LedgerDb := { documents := [("d1", c2Row)], chunks := [] }

/-- C2 (counterexample): re-registering `d1` with a different content hash
does not clear the prior error message — the `UPDATE` statement of
`add_document` never touches `error_message`, so it is still `"boom"`
afterwards, refuting the claimed clearing. -/
theorem C2_error_not_cleared_counterexample :
    (lookupKey (addDocument c2Db 5 "d1" "f.txt" "h2" none none none).2.documents
        "d1").map (fun r => r.error_message) ≠ some none := by
  decide

/-- C2 (amended): first registration inserts at `version = 1`,
`status = "pending"`; re-registering with the same hash is a no-op
returning `is_new = false`; re-registering with a different hash strictly
increments `version` (never decreasing or resetting it), resets `status`
to `"pending"` and returns `is_new = true` — but leaves the prior
`error_message` in place (it is cleared only later, by `update_status`). -/
theorem C2_register_semantics (db : LedgerDb) (t : Nat) (d fn h : String)
    (sz : Option Nat) (mt mj : Option String) :
    (∀ r, lookupKey db.documents d = some r → r.content_hash = h →
      addDocument db t d fn h sz mt mj = (false, db))
    ∧ (∀ r, lookupKey db.documents d = some r → r.content_hash ≠ h →
        (addDocument db t d fn h sz mt mj).1 = true ∧
        ∃ r', lookupKey (addDocument db t d fn h sz mt mj).2.documents d = some r'
          ∧ r'.version = r.version + 1
          ∧ r.version < r'.version
          ∧ r'.status = "pending"
          ∧ r'.content_hash = h
          ∧ r'.error_message = r.error_message)
    ∧ (lookupKey db.documents d = none →
        (addDocument db t d fn h sz mt mj).1 = true ∧
        ∃ r', lookupKey (addDocument db t d fn h sz mt mj).2.documents d = some r'
          ∧ r'.version = 1
          ∧ r'.status = "pending"
          ∧ r'.content_hash = h) := by
  refine ⟨?_, ?_, ?_⟩
  · intro r hr hh
    simp [addDocument, hr, hh]
  · intro r hr hh
    have hres : lookupKey (addDocument db t d fn h sz mt mj).2.documents d =
        some { r with
                 content_hash := h
                 version := r.version + 1
                 status := "pending"
                 last_updated := t
                 filename := fn
                 file_size := sz
                 mime_type := mt
                 metadata := mj } := by
      simp [addDocument, hr, hh, lookupKey_updateKey_self]
    exact ⟨by simp [addDocument, hr, hh],
      _, hres, rfl, Nat.lt_succ_self _, rfl, rfl, rfl⟩
  · intro hr
    have hres : lookupKey (addDocument db t d fn h sz mt mj).2.documents d =
        some { doc_id := d
               filename := fn
               content_hash := h
               file_size := sz
               mime_type := mt
               metadata := mj
               last_updated := t } := by
      simp [addDocument, hr, lookupKey_append, lookupKey]
    exact ⟨by simp [addDocument, hr], _, hres, rfl, rfl, rfl⟩

/-- C2 (witness): the three branches of `C2_register_semantics` applied at
concrete inputs — same-hash no-op on `c2Db`, changed-hash re-registration
on `c2Db` (version 3 → 4, error kept), and a fresh insert into an empty
ledger. -/
theorem C2_register_semantics_witness :
    (addDocument c2Db 5 "d1" "f.txt" "h1" none none none = (false, c2Db))
    ∧ ((addDocument c2Db 5 "d1" "f.txt" "h2" none none none).1 = true)
    ∧ ((addDocument ⟨[], []⟩ 5 "d9" "g.txt" "h9" none none none).1 = true) := by
  refine ⟨?_, ?_, ?_⟩
  · exact (C2_register_semantics c2Db 5 "d1" "f.txt" "h1" none none none).1
      c2Row (by decide) (by decide)
  · exact ((C2_register_semantics c2Db 5 "d1" "f.txt" "h2" none none none).2.1
      c2Row (by decide) (by decide)).1
  · exact ((C2_register_semantics ⟨[], []⟩ 5 "d9" "g.txt" "h9" none none none).2.2
      (by decide)).1

/-! ## Claims C3 and C9 — deletion semantics -/

/-- `chunk_id_map` ignores any metadata mutation that preserves keys and
`index_id` values — in particular the `deleted` flagging done by
`delete_chunk`. -/
theorem chunkIdMap_updateKey (md : List (String × VMeta)) (cid : String)
    (f : VMeta → VMeta) (hf : ∀ m, (f m).index_id = m.index_id) :
    chunkIdMap (updateKey md cid f) = chunkIdMap md := by
  unfold chunkIdMap updateKey
  rw [List.foldl_map]
  congr 1
  funext acc p
  by_cases h : p.1 = cid <;> simp [h, hf]

/-- A store of dimension 2 freshly created over an empty index directory. -/
def c3Store0 : VectorStore := loadOrCreateIndex 2 {} 0

/-- The store and disk after upserting the single chunk `"c1"` with the
(already unit-norm) vector `[1, 0]`. -/
def c3Up := c3Store0.upsert {} 1 [("c1", [1, 0])] [{}]

/-- The store after `delete_chunk("c1")` on `c3Up`'s store. -/
def c3Deleted := c3Up.1.deleteChunk 2 "c1"

/-- C3 (counterexample): after a successful `delete("c1")`, `query` with
the very vector that was upserted still returns `"c1"` — `query` never
consults the `deleted` flag — refuting "query never returns that
chunk_id".  (`stats()` moreover exposes no `active_vectors` field at all.) -/
theorem C3_deleted_chunk_still_returned :
    c3Deleted.2 = true
    ∧ (c3Deleted.1.query [1, 0] 5).map Prod.fst = ["c1"] := by
  constructor
  · decide
  · decide

/-- C3 (amended): for every chunk_id present in the store, `delete`
succeeds (returns `true`) and leaves `stats().total_vectors` (and
`metadata_count`) unchanged, but deletion is invisible to `query`: the
results of any query are exactly the same as before the deletion (so a
deleted chunk_id can still be returned), and `stats()` has no
`active_vectors` field that could decrease. -/
theorem C3_delete_semantics (s : VectorStore) (disk : VDiskFiles) (t k : Nat)
    (cid : String) (q : Vec) (m : VMeta)
    (hm : lookupKey s.chunk_metadata cid = some m) :
    (s.deleteChunk t cid).2 = true
    ∧ ((s.deleteChunk t cid).1.getStats disk).total_vectors
        = (s.getStats disk).total_vectors
    ∧ ((s.deleteChunk t cid).1.getStats disk).metadata_count
        = (s.getStats disk).metadata_count
    ∧ lookupKey (s.deleteChunk t cid).1.chunk_metadata cid
        = some { m with deleted := true, deleted_at := some t }
    ∧ (s.deleteChunk t cid).1.query q k = s.query q k := by
  have hd : s.deleteChunk t cid =
      ({ s with chunk_metadata := updateKey s.chunk_metadata cid fun m => { m with deleted := true, deleted_at := some t } }, true) := by
    simp [VectorStore.deleteChunk, hm]
  refine ⟨by simp [hd], ?_, ?_, ?_, ?_⟩
  · simp [hd, VectorStore.getStats]
  · simp [hd, VectorStore.getStats, updateKey]
  · simp [hd, lookupKey_updateKey_self, hm]
  · rw [hd]
    simp only [VectorStore.query]
    rw [chunkIdMap_updateKey]
    intro m'
    rfl

/-- C3 (witness): `C3_delete_semantics` applied to the concrete
one-chunk store `c3Up.1`. -/
theorem C3_delete_semantics_witness :
    (c3Up.1.deleteChunk 2 "c1").2 = true
    ∧ ((c3Up.1.deleteChunk 2 "c1").1.getStats c3Up.2.1).total_vectors
        = (c3Up.1.getStats c3Up.2.1).total_vectors
    ∧ (c3Up.1.deleteChunk 2 "c1").1.query [1, 0] 5 = c3Up.1.query [1, 0] 5 := by
  have h := C3_delete_semantics c3Up.1 c3Up.2.1 2 5 "c1" [1, 0]
    { payload := some {}, index_id := 0, added_at := 1 } (by decide)
  exact ⟨h.1, h.2.1, h.2.2.2.2⟩

/-- C9: `delete_chunk` on a present chunk_id mutates only the in-memory
metadata map — it returns `true`, flags the entry `deleted` (stamping
`deleted_at`), and leaves the FAISS rows (so `ntotal`), the version, the
dimension, the metadata key set and every other metadata entry
untouched.  The method performs no file IO at all (its embedding neither
consumes nor produces a `VDiskFiles`), so nothing is persisted — only
`upsert` calls `_save_index` — and the deletion is invisible to any store
instance later constructed from the on-disk artifacts. -/
theorem C9_delete_memory_only (s : VectorStore) (t : Nat) (cid : String) (m : VMeta)
    (hm : lookupKey s.chunk_metadata cid = some m) :
    (s.deleteChunk t cid).2 = true
    ∧ (s.deleteChunk t cid).1.rows = s.rows
    ∧ (s.deleteChunk t cid).1.current_version = s.current_version
    ∧ (s.deleteChunk t cid).1.dimension = s.dimension
    ∧ lookupKey (s.deleteChunk t cid).1.chunk_metadata cid
        = some { m with deleted := true, deleted_at := some t }
    ∧ (s.deleteChunk t cid).1.chunk_metadata.map Prod.fst
        = s.chunk_metadata.map Prod.fst
    ∧ (∀ c', c' ≠ cid →
        lookupKey (s.deleteChunk t cid).1.chunk_metadata c'
          = lookupKey s.chunk_metadata c') := by
  have hd : s.deleteChunk t cid =
      ({ s with chunk_metadata := updateKey s.chunk_metadata cid fun m => { m with deleted := true, deleted_at := some t } }, true) := by
    simp [VectorStore.deleteChunk, hm]
  refine ⟨by simp [hd], by simp [hd], by simp [hd], by simp [hd], ?_, ?_, ?_⟩
  · simp [hd, lookupKey_updateKey_self, hm]
  · simp only [hd]
    exact updateKey_keys s.chunk_metadata cid _
  · intro c' hne
    simp only [hd]
    exact lookupKey_updateKey_other s.chunk_metadata cid c' _ hne

/-- C9 (witness): `C9_delete_memory_only` applied to the concrete
one-chunk store `c3Up.1`. -/
theorem C9_delete_memory_only_witness :
    (c3Up.1.deleteChunk 2 "c1").2 = true
    ∧ (c3Up.1.deleteChunk 2 "c1").1.rows = c3Up.1.rows := by
  have h := C9_delete_memory_only c3Up.1 2 "c1"
    { payload := some {}, index_id := 0, added_at := 1 } (by decide)
  exact ⟨h.1, h.2.1⟩

/-! ## Claim C6 — dimension-mismatch failure -/

/-- `pat` occurs as a contiguous substring of `s`. -/
def containsSubstr (s pat : String) : Prop := List.IsInfix pat.data s.data

/-- Substring occurrence survives appending on the right. -/
theorem containsSubstr_append_left (a b pat : String) (h : containsSubstr a pat) :
    containsSubstr (a ++ b) pat := by
  obtain ⟨p, q, hpq⟩ := h
  refine ⟨p, q ++ b.data, ?_⟩
  rw [String.data_append, ← hpq]
  simp [List.append_assoc]

/-- The dimension-mismatch `ValueError` text always contains
`"dimension"`. -/
theorem dimErrMsg_contains_dimension (n d : Nat) :
    containsSubstr (dimErrMsg n d) "dimension" := by
  have base : containsSubstr "Vector dimension " "dimension" :=
    ⟨"Vector ".data, " ".data, by decide⟩
  unfold dimErrMsg
  exact containsSubstr_append_left _ _ _
    (containsSubstr_append_left _ _ _
      (containsSubstr_append_left _ _ _
        (containsSubstr_append_left _ _ _
          (containsSubstr_append_left _ _ _ base))))

/-- If the upsert loop returns successfully, every entry had the right
dimension. -/
theorem upsertGo_ok_lengths (dim t ntotal : Nat) (mds : List UpsertMeta) :
    ∀ (es : List (String × Vec)) (i : Nat) (md : List (String × VMeta)) (acc : List Vec)
      (md' : List (String × VMeta)) (out : List Vec),
      upsertGo dim t ntotal mds es i md acc = (md', Except.ok out) →
      ∀ p ∈ es, p.2.length = dim
  | [], _, _, _, _, _, _, p, hp => absurd hp (List.not_mem_nil p)
  | (cid, v) :: rest, i, md, acc, md', out, h, p, hp => by
    by_cases hv : v.length ≠ dim
    · simp [upsertGo, hv] at h
    · simp only [upsertGo, hv, if_false] at h
      rcases List.mem_cons.mp hp with hq | hq
      · subst hq; simpa using Decidable.not_not.mp hv
      · exact upsertGo_ok_lengths dim t ntotal mds rest (i + 1) _ _ md' out h p hq

/-- If some entry has the wrong dimension, the upsert loop raises a
`ValueError` whose message names the dimension, returning the metadata map
as mutated so far (and never reaching the index append). -/
theorem upsertGo_error_of_bad (dim t ntotal : Nat) (mds : List UpsertMeta) :
    ∀ (es : List (String × Vec)) (i : Nat) (md : List (String × VMeta)) (acc : List Vec),
      (∃ p ∈ es, p.2.length ≠ dim) →
      ∃ md' msg, upsertGo dim t ntotal mds es i md acc = (md', Except.error msg)
        ∧ containsSubstr msg "dimension"
  | [], _, _, _, hbad => absurd hbad (by simp)
  | (cid, v) :: rest, i, md, acc, hbad => by
    by_cases hv : v.length ≠ dim
    · exact ⟨md, dimErrMsg v.length dim, by simp [upsertGo, hv],
        dimErrMsg_contains_dimension _ _⟩
    · have hrest : ∃ p ∈ rest, p.2.length ≠ dim := by
        rcases hbad with ⟨p, hp, hplen⟩
        rcases List.mem_cons.mp hp with hq | hq
        · subst hq; exact absurd hplen (by simpa using Decidable.not_not.mp hv)
        · exact ⟨p, hq, hplen⟩
      obtain ⟨md', msg, heq, hsub⟩ :=
        upsertGo_error_of_bad dim t ntotal mds rest (i + 1)
          (insertKey md cid { payload := mds.get? i, index_id := ntotal + i, added_at := t })
          (acc ++ [normalizeVector v]) hrest
      refine ⟨md', msg, ?_, hsub⟩
      simp only [upsertGo]
      rw [if_neg hv]
      exact heq

/-- A loaded store always carries the configured dimension. -/
theorem loadOrCreateIndex_dimension (dim : Nat) (disk : VDiskFiles) (t : Nat) :
    (loadOrCreateIndex dim disk t).dimension = dim := by
  unfold loadOrCreateIndex
  split <;> rfl

/-- `update_status` rewrites exactly the document's status and error
columns. -/
theorem getDoc_updateStatus (db : LedgerDb) (t : Nat) (d : String)
    (st : IngestionStatus) (e : Option String) :
    lookupKey (updateStatus db t d st e).documents d =
      (lookupKey db.documents d).map
        (fun r => { r with status := st.value, error_message := e, last_updated := t }) := by
  simp [updateStatus, lookupKey_updateKey_self]

/-- Any upsert batch containing a wrongly-sized vector fails with a
"dimension" error, leaving the rows and disk untouched. -/
theorem upsert_dim_error (s : VectorStore) (disk : VDiskFiles) (t : Nat)
    (vectors : List (String × Vec)) (mds : List UpsertMeta)
    (hbad : ∃ p ∈ vectors, p.2.length ≠ s.dimension) :
    ∃ md msg,
      s.upsert disk t vectors mds
        = ({ s with chunk_metadata := md }, disk, Except.error msg)
      ∧ containsSubstr msg "dimension" := by
  have hne : vectors.isEmpty = false := by
    rcases hbad with ⟨p, hp, _⟩
    cases vectors with
    | nil => exact absurd hp (List.not_mem_nil p)
    | cons a l => rfl
  obtain ⟨md', msg, heq, hsub⟩ :=
    upsertGo_error_of_bad s.dimension t s.rows.length mds vectors 0 s.chunk_metadata [] hbad
  exact ⟨md', msg, by simp [VectorStore.upsert, hne, heq], hsub⟩

/-- C6: (a) any upsert batch containing a vector whose length differs from
the store's configured dimension fails with an error message containing
"dimension", leaving the FAISS rows and the disk unchanged (only the
in-memory metadata dict may carry entries from earlier iterations of the
loop); (b) when the pipeline reaches the upsert with such a batch,
`process()` returns `status = "failed"` with the "dimension" error, the
ledger records status `"failed"` with that error message, and the index
directory on disk is untouched (no partial write for the document). -/
theorem C6_dimension_mismatch :
    (∀ (s : VectorStore) (disk : VDiskFiles) (t : Nat)
        (vectors : List (String × Vec)) (mds : List UpsertMeta),
      (∃ p ∈ vectors, p.2.length ≠ s.dimension) →
      ∃ md msg,
        s.upsert disk t vectors mds
          = ({ s with chunk_metadata := md }, disk, Except.error msg)
        ∧ containsSubstr msg "dimension")
    ∧ (∀ (env : PipelineEnv) (cs co tt : Nat) (mstr : String)
        (ps : PState) (fp d fn : String) (records : List ExtractRecord)
        (embedded : List EmbeddedChunk) (cdb : List (String × Vec))
        (hits misses : Nat) (r0 : DocRow),
      env.extract fp = Except.ok records →
      stageEmbed env mstr d (stageDedup env (stageChunk env cs co records)) ps.cache 0 0
        = Except.ok (embedded, cdb, hits, misses) →
      (∃ c ∈ embedded, c.vector.length ≠ 384) →
      lookupKey ps.ledger.documents d = some r0 →
      (processDocument env cs co mstr tt ps fp d fn).1.status = "failed"
      ∧ (processDocument env cs co mstr tt ps fp d fn).2.index = ps.index
      ∧ ∃ msg,
          (processDocument env cs co mstr tt ps fp d fn).1.error
            = some ("Pipeline failed: " ++ msg)
          ∧ containsSubstr msg "dimension"
          ∧ ∃ row,
              lookupKey (processDocument env cs co mstr tt ps fp d fn).2.ledger.documents d
                = some row
              ∧ row.status = "failed"
              ∧ row.error_message = some ("Pipeline failed: " ++ msg)) := by
  constructor
  · exact upsert_dim_error
  · intro env cs co tt mstr ps fp d fn records embedded cdb hits misses r0
      hx he hbad hdoc
    have hdim : (loadOrCreateIndex 384 ps.index tt).dimension = 384 :=
      loadOrCreateIndex_dimension 384 ps.index tt
    have hbad' : ∃ p ∈ embedded.map (fun c => (c.chunk_id, c.vector)),
        p.2.length ≠ (loadOrCreateIndex 384 ps.index tt).dimension := by
      obtain ⟨c, hc, hlen⟩ := hbad
      exact ⟨(c.chunk_id, c.vector), List.mem_map_of_mem _ hc, by rw [hdim]; exact hlen⟩
    obtain ⟨md', msg, hequ, hsub⟩ :=
      upsert_dim_error (loadOrCreateIndex 384 ps.index tt) ps.index tt
        (embedded.map (fun c => (c.chunk_id, c.vector)))
        (embedded.map (fun c => c.metadata)) hbad'
    have hproc : processDocument env cs co mstr tt ps fp d fn =
        ({ status := "failed", doc_id := d, error := some ("Pipeline failed: " ++ msg) },
         { ledger := updateStatus (updateStatus ps.ledger tt d IngestionStatus.processing none)
             tt d IngestionStatus.failed (some ("Pipeline failed: " ++ msg))
           index := ps.index
           cache := cdb }) := by
      simp only [processDocument, hx, he, hequ, pipelineFail]
    rw [hproc]
    refine ⟨rfl, rfl, msg, rfl, hsub, ?_⟩
    rw [getDoc_updateStatus, getDoc_updateStatus, hdoc]
    exact ⟨_, rfl, rfl, rfl⟩

/-- The extractor output used by the C6 pipeline-level witness. -/
def c6Records : List ExtractRecord := [{ doc_id := "x1", text := "hello world" }]

/-- An environment whose embedder returns 2-component vectors — the wrong
dimension for the pipeline's 384-dimensional store. -/
def c6Env : PipelineEnv :=
  { sha := id
    extract := fun _ => Except.ok c6Records
    embed := fun _ => [1, 2]
    cacheAvailable := true }

/-- A persistent state whose ledger has document `d1` registered. -/
def c6Ps : PState :=
  { ledger := (addDocument ⟨[], []⟩ 0 "d1" "f.txt" "h1" none none none).2
    index := {}
    cache := [] }

/-- The successful embedding-stage payload of the C6 witness scenario. -/
def c6Payload :=
  match stageEmbed c6Env "m" "d1"
      (stageDedup c6Env (stageChunk c6Env 512 50 c6Records)) [] 0 0 with
  | Except.ok x => x
  | Except.error _ => ([], [], 0, 0)

/-- C6 (witness): both halves of `C6_dimension_mismatch` at concrete
inputs — a 3-component vector upserted into a 2-dimensional store, and a
full pipeline run whose embedder emits 2-component vectors. -/
theorem C6_dimension_mismatch_witness :
    (∃ md msg, c3Store0.upsert {} 1 [("c1", [1, 0, 0])] []
        = ({ c3Store0 with chunk_metadata := md }, {}, Except.error msg)
      ∧ containsSubstr msg "dimension")
    ∧ (processDocument c6Env 512 50 "m" 1 c6Ps "/f" "d1" "f.txt").1.status = "failed"
    ∧ (processDocument c6Env 512 50 "m" 1 c6Ps "/f" "d1" "f.txt").2.index = c6Ps.index := by
  refine ⟨?_, ?_⟩
  · exact C6_dimension_mismatch.1 c3Store0 {} 1 [("c1", [1, 0, 0])] [] (by decide)
  · have h := C6_dimension_mismatch.2 c6Env 512 50 1 "m" c6Ps "/f" "d1" "f.txt"
      c6Records c6Payload.1 c6Payload.2.1 c6Payload.2.2.1 c6Payload.2.2.2
      { doc_id := "d1", filename := "f.txt", content_hash := "h1", last_updated := 0 }
      rfl rfl (by decide) (by decide)
    exact ⟨h.1, h.2.1⟩

/-! ## Claim C5 — cache unavailability -/

/-- With the cache store unavailable, the first cache lookup of the
embedding stage raises, and the whole stage fails. -/
theorem stageEmbed_unavailable (env : PipelineEnv) (hna : env.cacheAvailable = false)
    (model docId : String) (d0 : DedupedChunk) (ds : List DedupedChunk)
    (cdb : List (String × Vec)) (h m : Nat) :
    stageEmbed env model docId (d0 :: ds) cdb h m
      = Except.error "embedding cache unavailable" := by
  simp [stageEmbed, cacheGet, hna]

/-- An environment identical to the C6 one but with a correct embedder and
the cache store unavailable. -/
def c5Env : PipelineEnv :=
  { sha := id
    extract := fun _ => Except.ok c6Records
    embed := fun _ => List.replicate 384 0
    cacheAvailable := false }

/-- C5 (counterexample): with the embedding cache unavailable the document
is NOT completed — the pipeline surfaces the cache failure as a hard
`failed` status with the cache error recorded, refuting "treats the
failure as a cache miss ... still completes the document". -/
theorem C5_cache_unavailable_counterexample :
    (processDocument c5Env 512 50 "m" 1 c6Ps "/f" "d1" "f.txt").1.status ≠ "completed"
    ∧ (processDocument c5Env 512 50 "m" 1 c6Ps "/f" "d1" "f.txt").1.status = "failed"
    ∧ (processDocument c5Env 512 50 "m" 1 c6Ps "/f" "d1" "f.txt").1.error
        = some "Pipeline failed: embedding cache unavailable" := by
  refine ⟨by decide, by decide, by decide⟩

/-- C5 (amended): the pipeline has no `try` around the cache calls, so a
failing cache `get` is NOT treated as a miss: for every document whose
extraction succeeds and produces at least one deduplicated chunk, cache
unavailability aborts processing — `process()` returns `status = "failed"`
and the ledger records `failed` with the cache error as the document
error. -/
theorem C5_cache_failure_fails_document (env : PipelineEnv) (cs co tt : Nat)
    (mstr : String) (ps : PState) (fp d fn : String)
    (records : List ExtractRecord) (r0 : DocRow)
    (hna : env.cacheAvailable = false)
    (hx : env.extract fp = Except.ok records)
    (hne : stageDedup env (stageChunk env cs co records) ≠ [])
    (hdoc : lookupKey ps.ledger.documents d = some r0) :
    (processDocument env cs co mstr tt ps fp d fn).1.status = "failed"
    ∧ (processDocument env cs co mstr tt ps fp d fn).1.error
        = some "Pipeline failed: embedding cache unavailable"
    ∧ ∃ row,
        lookupKey (processDocument env cs co mstr tt ps fp d fn).2.ledger.documents d
          = some row
        ∧ row.status = "failed"
        ∧ row.error_message = some "Pipeline failed: embedding cache unavailable" := by
  rcases hdd : stageDedup env (stageChunk env cs co records) with _ | ⟨d0, ds⟩
  · exact absurd hdd hne
  · have hse := stageEmbed_unavailable env hna mstr d d0 ds ps.cache 0 0
    have hproc : processDocument env cs co mstr tt ps fp d fn =
        ({ status := "failed", doc_id := d
           error := some "Pipeline failed: embedding cache unavailable" },
         { ledger := updateStatus (updateStatus ps.ledger tt d IngestionStatus.processing none)
             tt d IngestionStatus.failed (some "Pipeline failed: embedding cache unavailable")
           index := ps.index
           cache := ps.cache }) := by
      simp only [processDocument, hx, hdd, hse, pipelineFail]
      rfl
    rw [hproc]
    refine ⟨rfl, rfl, ?_⟩
    rw [getDoc_updateStatus, getDoc_updateStatus, hdoc]
    exact ⟨_, rfl, rfl, rfl⟩

/-- C5 (witness): `C5_cache_failure_fails_document` at the concrete
cache-down environment `c5Env`. -/
theorem C5_cache_failure_witness :
    (processDocument c5Env 512 50 "m" 1 c6Ps "/f" "d1" "f.txt").1.status = "failed"
    ∧ (processDocument c5Env 512 50 "m" 1 c6Ps "/f" "d1" "f.txt").1.error
        = some "Pipeline failed: embedding cache unavailable" := by
  have h := C5_cache_failure_fails_document c5Env 512 50 1 "m" c6Ps "/f" "d1" "f.txt"
    c6Records { doc_id := "d1", filename := "f.txt", content_hash := "h1", last_updated := 0 }
    rfl rfl (by decide) (by decide)
  exact ⟨h.1, h.2.1⟩

/-! ## Claim C7 — deduplication canonicalization -/

/-- Helper: a `some` lookup survives appending on the right. -/
theorem lookupKey_append_of_some {α β : Type} [DecidableEq α]
    (l₁ l₂ : List (α × β)) (k : α) (v : β) (h : lookupKey l₁ k = some v) :
    lookupKey (l₁ ++ l₂) k = some v := by
  rw [lookupKey_append, h]

/-- Helper: a missing key defers to the appended tail. -/
theorem lookupKey_append_of_none {α β : Type} [DecidableEq α]
    (l₁ l₂ : List (α × β)) (k : α) (h : lookupKey l₁ k = none) :
    lookupKey (l₁ ++ l₂) k = lookupKey l₂ k := by
  rw [lookupKey_append, h]

/-- The deduper invariant relating its two fields: a hash has a registry
entry exactly when it is in the seen set. -/
def goodState (st : DeduperState) : Prop :=
  ∀ k, (lookupKey st.chunk_registry k).isSome = true ↔ k ∈ st.seen_hashes

/-- The in-place contributor merge of `deduplicate_chunk`'s duplicate
branch. -/
def mergeDocId (did : String) (e : DedupedChunk) : DedupedChunk :=
  if did ∈ e.doc_ids then e else { e with doc_ids := e.doc_ids ++ [did] }

/-- The canonical record built by `deduplicate_chunk`'s fresh branch. -/
def freshCanonical (sha : String → String) (c : TextChunk) : DedupedChunk :=
  { chunk_id := c.chunk_id
    text := c.text
    sha256 := sha (normalizeText c.text)
    doc_ids := [c.doc_id]
    order := c.order
    meta := { c.meta with dedup_hash := some (sha (normalizeText c.text)), is_deduplicated := some false } }

/-- `deduplicate_chunk` only grows registry entries' contributor sets. -/
theorem dedupChunk_registry_mono (sha : String → String) (st : DeduperState)
    (c : TextChunk) (k did : String)
    (h : ∃ e, lookupKey st.chunk_registry k = some e ∧ did ∈ e.doc_ids) :
    ∃ e, lookupKey (dedupChunk sha st c).1.chunk_registry k = some e ∧ did ∈ e.doc_ids := by
  obtain ⟨e, he, hd⟩ := h
  simp only [dedupChunk]
  by_cases hseen : sha (normalizeText c.text) ∈ st.seen_hashes
  · simp only [hseen, if_true]
    by_cases hk : k = sha (normalizeText c.text)
    · subst hk
      rw [lookupKey_updateKey_self, he]
      refine ⟨_, rfl, ?_⟩
      dsimp only
      split
      · exact hd
      · exact List.mem_append_left _ hd
    · rw [lookupKey_updateKey_other _ _ _ _ hk]
      exact ⟨e, he, hd⟩
  · simp only [hseen, if_false]
    exact ⟨e, lookupKey_append_of_some _ _ _ _ he, hd⟩

/-- `deduplicate_chunk` preserves the deduper invariant. -/
theorem dedupChunk_goodState (sha : String → String) (st : DeduperState)
    (c : TextChunk) (h : goodState st) : goodState (dedupChunk sha st c).1 := by
  intro k
  simp only [dedupChunk]
  by_cases hseen : sha (normalizeText c.text) ∈ st.seen_hashes
  · simp only [hseen, if_true]
    by_cases hk : k = sha (normalizeText c.text)
    · subst hk
      rw [lookupKey_updateKey_self]
      simpa using h _
    · rw [lookupKey_updateKey_other _ _ _ _ hk]
      exact h k
  · simp only [hseen, if_false]
    by_cases hk : k = sha (normalizeText c.text)
    · subst hk
      have hnone : lookupKey st.chunk_registry (sha (normalizeText c.text)) = none := by
        cases hl : lookupKey st.chunk_registry (sha (normalizeText c.text)) with
        | none => rfl
        | some e => exact absurd ((h _).mp (by simp [hl])) hseen
      rw [lookupKey_append_of_none _ _ _ hnone]
      simp [lookupKey]
    · cases hl : lookupKey st.chunk_registry k with
      | some e =>
        rw [lookupKey_append_of_some _ _ _ _ hl]
        have := (h k).mp (by simp [hl])
        simp [this]
      | none =>
        rw [lookupKey_append_of_none _ _ _ hl]
        have hnotseen : k ∉ st.seen_hashes := fun hmem =>
          by have := (h k).mpr hmem; rw [hl] at this; simp at this
        have hk' : ¬sha (normalizeText c.text) = k := fun e => hk e.symm
        simp [lookupKey, hk, hk', hnotseen]

/-- Contributor records survive the rest of the run. -/
theorem dedupList_registry_mono (sha : String → String) :
    ∀ (cs : List TextChunk) (st : DeduperState) (k did : String),
      (∃ e, lookupKey st.chunk_registry k = some e ∧ did ∈ e.doc_ids) →
      ∃ e, lookupKey (dedupList sha st cs).1.chunk_registry k = some e ∧ did ∈ e.doc_ids
  | [], _, _, _, h => h
  | c :: cs, st, k, did, h =>
    dedupList_registry_mono sha cs (dedupChunk sha st c).1 k did
      (dedupChunk_registry_mono sha st c k did h)

/-- Specification-side selector, from the spec's words ("at most one
canonical chunk exists per unique normalized text: the first occurrence is
yielded"): keep each chunk whose normalized text was not seen earlier. -/
def firstOccChunks (seen : List String) : List TextChunk → List TextChunk
  | [] => []
  | c :: cs =>
    if normalizeText c.text ∈ seen then firstOccChunks seen cs
    else c :: firstOccChunks (seen ++ [normalizeText c.text]) cs

/-- The selector yields pairwise-distinct normalized texts, all outside the
initial seen set. -/
theorem firstOccChunks_nodup :
    ∀ (cs : List TextChunk) (seen : List String),
      ((firstOccChunks seen cs).map (fun c => normalizeText c.text)).Nodup
      ∧ ∀ x ∈ (firstOccChunks seen cs).map (fun c => normalizeText c.text), x ∉ seen
  | [], seen => ⟨List.nodup_nil, by simp [firstOccChunks]⟩
  | c :: cs, seen => by
    by_cases h : normalizeText c.text ∈ seen
    · simpa [firstOccChunks, h] using firstOccChunks_nodup cs seen
    · have ih := firstOccChunks_nodup cs (seen ++ [normalizeText c.text])
      constructor
      · simp only [firstOccChunks, h, if_false, List.map_cons, List.nodup_cons]
        refine ⟨fun hmem => ?_, ih.1⟩
        exact (ih.2 _ hmem) (List.mem_append_right _ (by simp))
      · intro x hx
        simp only [firstOccChunks, h, if_false, List.map_cons, List.mem_cons] at hx
        rcases hx with hx | hx
        · subst hx; exact h
        · exact fun hseen => (ih.2 x hx) (List.mem_append_left _ hseen)

/-- The duplicate branch yields nothing. -/
theorem dedupChunk_snd_dup (sha : String → String) (st : DeduperState) (c : TextChunk)
    (hin : sha (normalizeText c.text) ∈ st.seen_hashes) :
    (dedupChunk sha st c).2 = [] := by
  simp [dedupChunk, hin]

/-- The fresh branch yields exactly the canonical record. -/
theorem dedupChunk_snd_fresh (sha : String → String) (st : DeduperState) (c : TextChunk)
    (hnin : sha (normalizeText c.text) ∉ st.seen_hashes) :
    (dedupChunk sha st c).2 = [freshCanonical sha c] := by
  simp only [dedupChunk, hnin, if_false]
  rfl

/-- The duplicate branch leaves the seen set unchanged. -/
theorem dedupChunk_seen_dup (sha : String → String) (st : DeduperState) (c : TextChunk)
    (hin : sha (normalizeText c.text) ∈ st.seen_hashes) :
    (dedupChunk sha st c).1.seen_hashes = st.seen_hashes := by
  simp [dedupChunk, hin]

/-- The fresh branch appends the new hash to the seen set. -/
theorem dedupChunk_seen_fresh (sha : String → String) (st : DeduperState) (c : TextChunk)
    (hnin : sha (normalizeText c.text) ∉ st.seen_hashes) :
    (dedupChunk sha st c).1.seen_hashes
      = st.seen_hashes ++ [sha (normalizeText c.text)] := by
  simp [dedupChunk, hnin]

/-- After processing a chunk (fresh or duplicate), its `doc_id` is in the
canonical registry entry for its normalized text. -/
theorem dedupChunk_adds_docid (sha : String → String) (st : DeduperState)
    (c : TextChunk) (hgood : goodState st) :
    ∃ e, lookupKey (dedupChunk sha st c).1.chunk_registry (sha (normalizeText c.text))
        = some e ∧ c.doc_id ∈ e.doc_ids := by
  by_cases hin : sha (normalizeText c.text) ∈ st.seen_hashes
  · have hsome : ∃ e, lookupKey st.chunk_registry (sha (normalizeText c.text)) = some e := by
      have := (hgood (sha (normalizeText c.text))).mpr hin
      cases hl : lookupKey st.chunk_registry (sha (normalizeText c.text)) with
      | none => rw [hl] at this; simp at this
      | some e => exact ⟨e, rfl⟩
    obtain ⟨e, he⟩ := hsome
    simp only [dedupChunk, hin, if_true]
    rw [lookupKey_updateKey_self, he]
    refine ⟨_, rfl, ?_⟩
    dsimp only
    split
    · assumption
    · exact List.mem_append_right _ (by simp)
  · have hnone : lookupKey st.chunk_registry (sha (normalizeText c.text)) = none := by
      cases hl : lookupKey st.chunk_registry (sha (normalizeText c.text)) with
      | none => rfl
      | some e => exact absurd ((hgood _).mp (by simp [hl])) hin
    simp only [dedupChunk, hin, if_false]
    rw [lookupKey_append_of_none _ _ _ hnone]
    refine ⟨freshCanonical sha c, ?_, ?_⟩
    · simp only [lookupKey, if_pos rfl]
      rfl
    · simp [freshCanonical]

/-- One unfolding step of the run. -/
theorem dedupList_cons (sha : String → String) (st : DeduperState) (c : TextChunk)
    (cs : List TextChunk) :
    dedupList sha st (c :: cs) =
      ((dedupList sha (dedupChunk sha st c).1 cs).1,
       (dedupChunk sha st c).2 ++ (dedupList sha (dedupChunk sha st c).1 cs).2) := rfl

/-- Main induction for C7: relative to a state coupled with a seen-text
list, the run yields exactly the first occurrences (as chunks), and every
processed chunk's `doc_id` ends up in its canonical registry entry. -/
theorem dedupList_spec (sha : String → String) (hinj : Function.Injective sha) :
    ∀ (cs : List TextChunk) (st : DeduperState) (seenTexts : List String),
      st.seen_hashes = seenTexts.map sha →
      goodState st →
      ((dedupList sha st cs).2.map (fun dc => dc.chunk_id)
          = (firstOccChunks seenTexts cs).map (fun c => c.chunk_id))
      ∧ ((dedupList sha st cs).2.map (fun dc => normalizeText dc.text)
          = (firstOccChunks seenTexts cs).map (fun c => normalizeText c.text))
      ∧ (∀ c ∈ cs, ∃ e,
          lookupKey (dedupList sha st cs).1.chunk_registry (sha (normalizeText c.text))
            = some e ∧ c.doc_id ∈ e.doc_ids)
  | [], st, seenTexts, hseen, hgood => by
    refine ⟨rfl, rfl, ?_⟩
    intro c hc
    exact absurd hc (List.not_mem_nil c)
  | c :: cs, st, seenTexts, hseen, hgood => by
    have hmemiff : sha (normalizeText c.text) ∈ st.seen_hashes
        ↔ normalizeText c.text ∈ seenTexts := by
      rw [hseen]
      exact List.mem_map_of_injective hinj
    have hgood' : goodState (dedupChunk sha st c).1 := dedupChunk_goodState sha st c hgood
    by_cases hdup : normalizeText c.text ∈ seenTexts
    · have hin : sha (normalizeText c.text) ∈ st.seen_hashes := hmemiff.mpr hdup
      have hseen' : (dedupChunk sha st c).1.seen_hashes = seenTexts.map sha := by
        rw [dedupChunk_seen_dup sha st c hin, hseen]
      have ih := dedupList_spec sha hinj cs (dedupChunk sha st c).1 seenTexts hseen' hgood'
      refine ⟨?_, ?_, ?_⟩
      · rw [dedupList_cons]
        simp only [dedupChunk_snd_dup sha st c hin, List.nil_append]
        simpa [firstOccChunks, hdup] using ih.1
      · rw [dedupList_cons]
        simp only [dedupChunk_snd_dup sha st c hin, List.nil_append]
        simpa [firstOccChunks, hdup] using ih.2.1
      · intro c' hc'
        rcases List.mem_cons.mp hc' with hq | hq
        · rw [hq, dedupList_cons]
          exact dedupList_registry_mono sha cs (dedupChunk sha st c).1 _ _
            (dedupChunk_adds_docid sha st c hgood)
        · rw [dedupList_cons]
          exact ih.2.2 c' hq
    · have hnin : sha (normalizeText c.text) ∉ st.seen_hashes :=
        fun hmem => hdup (hmemiff.mp hmem)
      have hseen' : (dedupChunk sha st c).1.seen_hashes
          = (seenTexts ++ [normalizeText c.text]).map sha := by
        rw [dedupChunk_seen_fresh sha st c hnin, hseen, List.map_append]
        rfl
      have ih := dedupList_spec sha hinj cs (dedupChunk sha st c).1
        (seenTexts ++ [normalizeText c.text]) hseen' hgood'
      refine ⟨?_, ?_, ?_⟩
      · rw [dedupList_cons]
        simp only [dedupChunk_snd_fresh sha st c hnin, List.singleton_append,
          List.map_cons, firstOccChunks, hdup, if_false, List.cons.injEq]
        exact ⟨rfl, ih.1⟩
      · rw [dedupList_cons]
        simp only [dedupChunk_snd_fresh sha st c hnin, List.singleton_append,
          List.map_cons, firstOccChunks, hdup, if_false, List.cons.injEq]
        exact ⟨rfl, ih.2.1⟩
      · intro c' hc'
        rcases List.mem_cons.mp hc' with hq | hq
        · rw [hq, dedupList_cons]
          exact dedupList_registry_mono sha cs (dedupChunk sha st c).1 _ _
            (dedupChunk_adds_docid sha st c hgood)
        · rw [dedupList_cons]
          exact ih.2.2 c' hq

/-- C7: fed any sequence of chunks from its initial state, the Deduper
yields exactly the first occurrence per normalized text (lowercased,
whitespace collapsed) — the yielded normalized texts are pairwise
distinct, the yielded chunks are precisely the specification's
first-occurrence selection — and every chunk's `doc_id` (including every
later duplicate's) is merged into the canonical registry entry for its
normalized text.  `sha256` is modeled as an arbitrary injective hash. -/
theorem C7_dedup_canonicalization (sha : String → String)
    (hinj : Function.Injective sha) (cs : List TextChunk) :
    ((dedupList sha DeduperState.empty cs).2.map (fun dc => normalizeText dc.text)).Nodup
    ∧ ((dedupList sha DeduperState.empty cs).2.map (fun dc => dc.chunk_id)
        = (firstOccChunks [] cs).map (fun c => c.chunk_id))
    ∧ ∀ c ∈ cs, ∃ e,
        lookupKey (dedupList sha DeduperState.empty cs).1.chunk_registry
          (sha (normalizeText c.text)) = some e
        ∧ c.doc_id ∈ e.doc_ids := by
  have hmain := dedupList_spec sha hinj cs DeduperState.empty [] rfl
    (by intro k; simp [DeduperState.empty, lookupKey])
  refine ⟨?_, hmain.1, hmain.2.2⟩
  rw [hmain.2.1]
  exact (firstOccChunks_nodup cs []).1

/-- Chunks used by the C7 witness: the same paragraph (up to case and
whitespace) from two documents. -/
def c7a : TextChunk :=
  { doc_id := "d1", chunk_id := "c-d1", text := "Hello  World", sha256 := "", order := 0, meta := {} }

/-- Second C7 witness chunk. -/
def c7b : TextChunk :=
  { doc_id := "d2", chunk_id := "c-d2", text := "hello world", sha256 := "", order := 0, meta := {} }

/-- C7 (witness): `C7_dedup_canonicalization` with the identity hash on
two chunks sharing one normalized paragraph: the duplicate's `doc_id` is
recorded on the canonical entry. -/
theorem C7_dedup_canonicalization_witness :
    ∃ e, lookupKey (dedupList id DeduperState.empty [c7a, c7b]).1.chunk_registry
        (id (normalizeText c7b.text)) = some e
      ∧ c7b.doc_id ∈ e.doc_ids := by
  exact (C7_dedup_canonicalization id Function.injective_id [c7a, c7b]).2.2 c7b
    (by decide)

/-! ## Claim C1 — idempotency of `process()` -/

/-- After `add_document`, the ledger row for `doc_id` carries the given
content hash (in all three branches). -/
theorem addDocument_hash (db : LedgerDb) (t : Nat) (d fn h : String)
    (sz : Option Nat) (mt mj : Option String) :
    ∃ r, lookupKey (addDocument db t d fn h sz mt mj).2.documents d = some r
      ∧ r.content_hash = h := by
  cases hl : lookupKey db.documents d with
  | some row =>
    by_cases hh : row.content_hash = h
    · exact ⟨row, by simp [addDocument, hl, hh], hh⟩
    · refine ⟨{ row with
          content_hash := h
          version := row.version + 1
          status := "pending"
          last_updated := t
          filename := fn
          file_size := sz
          mime_type := mt
          metadata := mj }, ?_, rfl⟩
      simp [addDocument, hl, hh, lookupKey_updateKey_self]
  | none =>
    refine ⟨{ doc_id := d
              filename := fn
              content_hash := h
              file_size := sz
              mime_type := mt
              metadata := mj
              last_updated := t }, ?_, rfl⟩
    simp [addDocument, hl, lookupKey_append, lookupKey]

/-- `add_chunks` rewrites only the chunk count on the document row. -/
theorem getDoc_addChunks (db : LedgerDb) (t : Nat) (d : String)
    (chs : List (String × Nat × String)) :
    lookupKey (addChunks db t d chs).documents d
      = (lookupKey db.documents d).map
          (fun r => { r with chunks_count := chs.length, last_updated := t }) := by
  simp [addChunks, lookupKey_updateKey_self]

/-- Lookup through a conditional row-rewriting map (the shape of the SQL
`UPDATE ... WHERE doc_id IN (...)`). -/
theorem lookupKey_mapCond {α β : Type} [DecidableEq α]
    (l : List (α × β)) (ts : List α) (f : β → β) (d : α) :
    lookupKey (l.map (fun p => if p.1 ∈ ts then (p.1, f p.2) else p)) d
      = (lookupKey l d).map (fun v => if d ∈ ts then f v else v) := by
  induction l with
  | nil => rfl
  | cons p rest ih =>
    by_cases hp : p.1 ∈ ts
    · by_cases hd : p.1 = d
      · subst hd; simp [lookupKey, hp]
      · simp [lookupKey, hp, hd, ih]
    · by_cases hd : p.1 = d
      · subst hd; simp [lookupKey, hp]
      · simp [lookupKey, hp, hd, ih]

/-- On success, `mark_chunks_embedded` rewrites only `embedding_model` and
`last_updated` on the affected document rows. -/
theorem markChunksEmbedded_ok_lookup (db : LedgerDb) (t : Nat) (ids : List String)
    (m : String) (db' : LedgerDb) (hok : markChunksEmbedded db t ids m = Except.ok db')
    (d : String) :
    lookupKey db'.documents d
      = (lookupKey db.documents d).map
          (fun r =>
            if d ∈ (db.chunks.filter (fun c => c.chunk_id ∈ ids)).map (fun c => c.doc_id)
            then { r with embedding_model := some m, last_updated := t } else r) := by
  unfold markChunksEmbedded at hok
  by_cases hids : ids.isEmpty
  · simp [hids] at hok
  · rw [if_neg hids, Except.ok.injEq] at hok
    subst hok
    exact lookupKey_mapCond db.documents
      ((db.chunks.filter (fun c => c.chunk_id ∈ ids)).map (fun c => c.doc_id))
      (fun r => { r with embedding_model := some m, last_updated := t }) d

/-- When `process_document` reports completion, the ledger row keeps its
content hash and shows status `"completed"`. -/
theorem processDocument_completed (env : PipelineEnv) (cs co tt : Nat) (mstr : String)
    (ps : PState) (fp d fn : String) (r : DocRow)
    (hr : lookupKey ps.ledger.documents d = some r)
    (hst : (processDocument env cs co mstr tt ps fp d fn).1.status = "completed") :
    ∃ r', lookupKey (processDocument env cs co mstr tt ps fp d fn).2.ledger.documents d
        = some r'
      ∧ r'.content_hash = r.content_hash
      ∧ r'.status = "completed" := by
  have hst' := hst
  simp only [processDocument] at hst'
  cases hex : env.extract fp with
  | error e =>
    rw [hex] at hst'
    dsimp only at hst'
    simp [pipelineFail] at hst'
  | ok records =>
    rw [hex] at hst'
    dsimp only at hst'
    cases hemb : stageEmbed env mstr d
        (stageDedup env (stageChunk env cs co records)) ps.cache 0 0 with
    | error e =>
      rw [hemb] at hst'
      dsimp only at hst'
      simp [pipelineFail] at hst'
    | ok quad =>
      obtain ⟨embedded, cdb, hits, misses⟩ := quad
      rw [hemb] at hst'
      dsimp only at hst'
      rcases hup : (loadOrCreateIndex 384 ps.index tt).upsert ps.index tt
          (embedded.map (fun c => (c.chunk_id, c.vector)))
          (embedded.map (fun c => c.metadata)) with ⟨s1, disk1, res⟩
      rw [hup] at hst'
      cases res with
      | error e =>
        dsimp only at hst'
        simp [pipelineFail] at hst'
      | ok ver =>
        dsimp only at hst'
        cases hmk : markChunksEmbedded
            (addChunks (updateStatus ps.ledger tt d IngestionStatus.processing none) tt d
              (embedded.map (fun c => (c.chunk_id, c.metadata.order, c.metadata.chunk_hash))))
            tt (embedded.map (fun c => c.chunk_id)) mstr with
        | error e =>
          rw [hmk] at hst'
          dsimp only at hst'
          simp [pipelineFail] at hst'
        | ok ledger2 =>
          have hproc : processDocument env cs co mstr tt ps fp d fn =
              ({ status := "completed", doc_id := d, filename := some fn
                 chunks_processed := embedded.length, index_version := some ver
                 cache_hits := hits, cache_misses := misses },
               { ledger := updateStatus ledger2 tt d IngestionStatus.completed none
                 index := disk1
                 cache := cdb }) := by
            simp only [processDocument, hex, hemb, hup, hmk]
          rw [hproc]
          dsimp only
          rw [getDoc_updateStatus]
          rw [markChunksEmbedded_ok_lookup _ _ _ _ _ hmk]
          rw [getDoc_addChunks, getDoc_updateStatus, hr]
          simp only [Option.map_some']
          refine ⟨_, rfl, ?_, rfl⟩
          dsimp only
          split
          · rfl
          · rfl

/-- C1: if a first `ingest_document` call completes, a second call with
the identical `(doc_id, content_hash)` does no ingestion work: it returns
`already_processed`, leaves the entire persistent state (ledger, index
directory, cache) unchanged, and in particular the Vector Index Store's
`total_vectors` is unchanged by it. -/
theorem C1_ingest_idempotent (env : PipelineEnv) (cs co t₁ t₂ : Nat) (mstr : String)
    (ps : PState) (fp d fn h : String) (sz : Option Nat) (mt : Option String)
    (fp₂ fn₂ : String) (sz₂ : Option Nat) (mt₂ : Option String)
    (hdone : (ingestDocument env cs co mstr t₁ ps fp d fn h sz mt).1.status = "completed") :
    (ingestDocument env cs co mstr t₂
        (ingestDocument env cs co mstr t₁ ps fp d fn h sz mt).2 fp₂ d fn₂ h sz₂ mt₂).1
      = { status := "already_processed", doc_id := d
          message := some "Document already processed" }
    ∧ (ingestDocument env cs co mstr t₂
        (ingestDocument env cs co mstr t₁ ps fp d fn h sz mt).2 fp₂ d fn₂ h sz₂ mt₂).2
      = (ingestDocument env cs co mstr t₁ ps fp d fn h sz mt).2
    ∧ ((loadOrCreateIndex 384
          (ingestDocument env cs co mstr t₂
            (ingestDocument env cs co mstr t₁ ps fp d fn h sz mt).2 fp₂ d fn₂ h sz₂ mt₂).2.index
          t₂).getStats
        (ingestDocument env cs co mstr t₂
          (ingestDocument env cs co mstr t₁ ps fp d fn h sz mt).2 fp₂ d fn₂ h sz₂ mt₂).2.index).total_vectors
      = ((loadOrCreateIndex 384
            (ingestDocument env cs co mstr t₁ ps fp d fn h sz mt).2.index t₂).getStats
          (ingestDocument env cs co mstr t₁ ps fp d fn h sz mt).2.index).total_vectors := by
  have hrow : ∃ row,
      lookupKey (ingestDocument env cs co mstr t₁ ps fp d fn h sz mt).2.ledger.documents d
        = some row ∧ row.content_hash = h ∧ row.status = "completed" := by
    simp only [ingestDocument] at hdone ⊢
    cases hgs : lookupKey ps.ledger.documents d with
    | some row0 =>
      rw [show getDocumentStatus ps.ledger d = some row0 from hgs] at hdone ⊢
      dsimp only at hdone ⊢
      by_cases hcond : row0.content_hash = h ∧ row0.status = "completed"
      · rw [if_pos hcond] at hdone
        simp at hdone
      · rw [if_neg hcond] at hdone ⊢
        obtain ⟨ra, hra, hrah⟩ := addDocument_hash ps.ledger t₁ d fn h sz mt none
        obtain ⟨r', hr', hhash, hstat⟩ := processDocument_completed env cs co t₁ mstr
          { ps with ledger := (addDocument ps.ledger t₁ d fn h sz mt none).2 }
          fp d fn ra hra hdone
        exact ⟨r', hr', by rw [hhash, hrah], hstat⟩
    | none =>
      rw [show getDocumentStatus ps.ledger d = none from hgs] at hdone ⊢
      dsimp only at hdone ⊢
      obtain ⟨ra, hra, hrah⟩ := addDocument_hash ps.ledger t₁ d fn h sz mt none
      obtain ⟨r', hr', hhash, hstat⟩ := processDocument_completed env cs co t₁ mstr
        { ps with ledger := (addDocument ps.ledger t₁ d fn h sz mt none).2 }
        fp d fn ra hra hdone
      exact ⟨r', hr', by rw [hhash, hrah], hstat⟩
  obtain ⟨row, hlook, hhash, hstat⟩ := hrow
  have hred : ingestDocument env cs co mstr t₂
      (ingestDocument env cs co mstr t₁ ps fp d fn h sz mt).2 fp₂ d fn₂ h sz₂ mt₂
      = ({ status := "already_processed", doc_id := d
           message := some "Document already processed" },
         (ingestDocument env cs co mstr t₁ ps fp d fn h sz mt).2) := by
    generalize hQ : (ingestDocument env cs co mstr t₁ ps fp d fn h sz mt).2 = Q at hlook ⊢
    simp only [ingestDocument]
    rw [show getDocumentStatus Q.ledger d = some row from hlook]
    dsimp only
    rw [if_pos ⟨hhash, hstat⟩]
  refine ⟨by rw [hred], by rw [hred], by rw [hred]⟩

/-- Environment for the C1 witness: one extracted record, a correct
384-dimensional embedder (the zero vector, whose norm-0 branch skips
normalization), cache available. -/
def c1Env : PipelineEnv :=
  { sha := id
    extract := fun _ => Except.ok c6Records
    embed := fun _ => List.replicate 384 0
    cacheAvailable := true }

/-- Empty persistent state for the C1 witness. -/
def c1Ps : PState := { ledger := ⟨[], []⟩, index := {}, cache := [] }

/-- C1 (witness): `C1_ingest_idempotent` on a concrete successful run —
the second identical call returns `already_processed` and leaves the
state untouched. -/
theorem C1_ingest_idempotent_witness :
    (ingestDocument c1Env 512 50 "m" 2
        (ingestDocument c1Env 512 50 "m" 1 c1Ps "/f" "d1" "f.txt" "h1" none none).2
        "/f" "d1" "f.txt" "h1" none none).1
      = { status := "already_processed", doc_id := "d1"
          message := some "Document already processed" }
    ∧ (ingestDocument c1Env 512 50 "m" 2
        (ingestDocument c1Env 512 50 "m" 1 c1Ps "/f" "d1" "f.txt" "h1" none none).2
        "/f" "d1" "f.txt" "h1" none none).2
      = (ingestDocument c1Env 512 50 "m" 1 c1Ps "/f" "d1" "f.txt" "h1" none none).2 := by
  have h := C1_ingest_idempotent c1Env 512 50 1 2 "m" c1Ps "/f" "d1" "f.txt" "h1"
    none none "/f" "f.txt" none none (by decide)
  exact ⟨h.1, h.2.1⟩

end RAGoLLAMA
